import Mathlib

/-!
Verification of the geometry/rendering core of the Safety Hazard Mapper
repository: the layout/fit engine, the hazard/region synchronizer, the
heatmap renderer, the mask generator and the interaction state.

Numeric values are modelled by rationals: the source manipulates
JavaScript numbers with no overflow-relevant arithmetic, and every
division in the modelled code paths is guarded so that the denominator
is nonzero, hence no NaN or infinity arises on those paths.
-/

namespace SafetyMapper

/-! Data model, from the type declarations of the repository.  At
runtime the values come from an untrusted external source, so fields
that the code defensively tests for presence are modelled as `Option`. -/

/-- Risk record of a hazard.  The severity is kept as a raw string:
the code receives untrusted data and explicitly handles values outside
the nominal LOW/MEDIUM/HIGH enumeration. -/
structure Risk where
  severity : String
  likelihood : String
  reason : String
deriving DecidableEq, Repr

/-- Hazard record.  The code accesses `hz.risk?.severity`, so `risk`
may be absent at runtime and is modelled as an `Option`. -/
structure Hazard where
  id : String
  hazard : String
  risk : Option Risk
  decide_controls : List String
deriving DecidableEq, Repr

/-- Region record: `shape` is a raw string (untrusted input may carry a
value outside the rect/poly enumeration), and the geometric fields are
optional exactly as in the source type declaration. -/
structure Region where
  id : String
  shape : String
  x : Option ℚ := none
  y : Option ℚ := none
  w : Option ℚ := none
  h : Option ℚ := none
  points : Option (List (ℚ × ℚ)) := none
deriving DecidableEq, Repr

/-! Layout/Fit engine, from computeMetrics in ImageDisplay.tsx. -/

/-- Layout metrics value object, from the ImgMetrics type. -/
structure ImgMetrics where
  naturalW : ℚ
  naturalH : ℚ
  drawW : ℚ
  drawH : ℚ
  offsetX : ℚ
  offsetY : ℚ
deriving DecidableEq, Repr

/-- Embedding of computeMetrics (ImageDisplay.tsx lines 109 to 125).
The source returns early, leaving the React state untouched, when
`img.naturalWidth` or `img.naturalHeight` is falsy (zero); otherwise it
computes the letterbox metrics from the container rectangle `cw`, `ch`
and calls setMetrics with a fresh record.  The previous metrics state is
threaded explicitly as `prev`. -/
def computeMetrics (prev : ImgMetrics) (cw ch naturalWidth naturalHeight : ℚ) :
    ImgMetrics :=
  if naturalWidth = 0 ∨ naturalHeight = 0 then prev
  else
    let sx := cw / naturalWidth
    let sy := ch / naturalHeight
    let scale := min sx sy
    let drawW := naturalWidth * scale
    let drawH := naturalHeight * scale
    let offsetX := (cw - drawW) / 2
    let offsetY := (ch - drawH) / 2
    { naturalW := naturalWidth, naturalH := naturalHeight,
      drawW := drawW, drawH := drawH, offsetX := offsetX, offsetY := offsetY }

/-- C1: for positive container and natural dimensions, the computed
metrics satisfy drawW ≤ cw, drawH ≤ ch, at least one of the two with
equality (exact over ℚ), and both offsets are nonnegative. -/
theorem computeMetrics_letterbox_fit (prev : ImgMetrics)
    (cw ch nw nh : ℚ) (hcw : 0 < cw) (hch : 0 < ch)
    (hnw : 0 < nw) (hnh : 0 < nh) :
    let m := computeMetrics prev cw ch nw nh
    m.drawW ≤ cw ∧ m.drawH ≤ ch ∧ (m.drawW = cw ∨ m.drawH = ch) ∧
      0 ≤ m.offsetX ∧ 0 ≤ m.offsetY := by
  have hnw0 : nw ≠ 0 := ne_of_gt hnw
  have hnh0 : nh ≠ 0 := ne_of_gt hnh
  have hne : ¬(nw = 0 ∨ nh = 0) := by push_neg; exact ⟨hnw0, hnh0⟩
  intro m
  have hmW : m.drawW = nw * min (cw / nw) (ch / nh) := by
    simp only [m, computeMetrics, if_neg hne]
  have hmH : m.drawH = nh * min (cw / nw) (ch / nh) := by
    simp only [m, computeMetrics, if_neg hne]
  have hmX : m.offsetX = (cw - nw * min (cw / nw) (ch / nh)) / 2 := by
    simp only [m, computeMetrics, if_neg hne]
  have hmY : m.offsetY = (ch - nh * min (cw / nw) (ch / nh)) / 2 := by
    simp only [m, computeMetrics, if_neg hne]
  have hW : nw * min (cw / nw) (ch / nh) ≤ cw := by
    calc nw * min (cw / nw) (ch / nh) ≤ nw * (cw / nw) :=
          mul_le_mul_of_nonneg_left (min_le_left _ _) (le_of_lt hnw)
      _ = cw := by field_simp
  have hH : nh * min (cw / nw) (ch / nh) ≤ ch := by
    calc nh * min (cw / nw) (ch / nh) ≤ nh * (ch / nh) :=
          mul_le_mul_of_nonneg_left (min_le_right _ _) (le_of_lt hnh)
      _ = ch := by field_simp
  have hEq : nw * min (cw / nw) (ch / nh) = cw ∨
      nh * min (cw / nw) (ch / nh) = ch := by
    rcases min_cases (cw / nw) (ch / nh) with ⟨hmin, _⟩ | ⟨hmin, _⟩
    · left; rw [hmin]; field_simp
    · right; rw [hmin]; field_simp
  refine ⟨?_, ?_, ?_, ?_, ?_⟩
  · rw [hmW]; exact hW
  · rw [hmH]; exact hH
  · rw [hmW, hmH]; exact hEq
  · rw [hmX]; exact div_nonneg (sub_nonneg.mpr hW) (by norm_num)
  · rw [hmY]; exact div_nonneg (sub_nonneg.mpr hH) (by norm_num)

/-- Witness for C1: the letterbox property instantiated at a concrete
200 by 100 container with a 50 by 50 natural image. -/
theorem computeMetrics_letterbox_fit_witness :
    ((0:ℚ) < 200 ∧ (0:ℚ) < 100 ∧ (0:ℚ) < 50 ∧ (0:ℚ) < 50) ∧
    (let m := computeMetrics ⟨0, 0, 0, 0, 0, 0⟩ 200 100 50 50
     m.drawW ≤ 200 ∧ m.drawH ≤ 100 ∧ (m.drawW = 200 ∨ m.drawH = 100) ∧
       0 ≤ m.offsetX ∧ 0 ≤ m.offsetY) :=
  ⟨⟨by norm_num, by norm_num, by norm_num, by norm_num⟩,
   computeMetrics_letterbox_fit ⟨0, 0, 0, 0, 0, 0⟩ 200 100 50 50
     (by norm_num) (by norm_num) (by norm_num) (by norm_num)⟩

/-- C4 counterexample: with previously computed metrics present and a
zero container width (naturals positive), computeMetrics does NOT leave
the previous metrics unchanged: the guard only tests the natural
dimensions, so a fresh all-zero-draw metrics record replaces them. -/
theorem computeMetrics_zero_container_counterexample :
    computeMetrics ⟨100, 100, 50, 50, 10, 10⟩ 0 100 100 100 ≠
      ⟨100, 100, 50, 50, 10, 10⟩ := by
  norm_num [computeMetrics, min_def, ImgMetrics.mk.injEq]

/-- C4 amended: if naturalWidth or naturalHeight is zero the previous
metrics are returned unchanged; but a zero container width with positive
natural dimensions produces fresh metrics with drawW = drawH = 0 (still
finite rationals: no NaN, since the only divisions are by the natural
dimensions, which the guard forces nonzero). -/
theorem computeMetrics_zero_guard (prev : ImgMetrics) (cw ch nw nh : ℚ) :
    ((nw = 0 ∨ nh = 0) → computeMetrics prev cw ch nw nh = prev) ∧
    (0 < nw → 0 < nh → 0 ≤ ch →
      (computeMetrics prev 0 ch nw nh).drawW = 0 ∧
      (computeMetrics prev 0 ch nw nh).drawH = 0) := by
  constructor
  · intro h
    simp only [computeMetrics, if_pos h]
  · intro hnw hnh hch
    have hne : ¬(nw = 0 ∨ nh = 0) := by
      push_neg; exact ⟨ne_of_gt hnw, ne_of_gt hnh⟩
    have hscale : min ((0:ℚ) / nw) (ch / nh) = 0 := by
      rw [zero_div]
      exact min_eq_left (div_nonneg hch (le_of_lt hnh))
    constructor
    · simp only [computeMetrics, if_neg hne, hscale, mul_zero]
    · simp only [computeMetrics, if_neg hne, hscale, mul_zero]

/-- Witness for C4 amended: the guard at nw = 0, and the zero-container
behaviour at cw = 0, ch = 100, nw = nh = 100. -/
theorem computeMetrics_zero_guard_witness :
    (computeMetrics ⟨1, 2, 3, 4, 5, 6⟩ 200 100 0 100 = ⟨1, 2, 3, 4, 5, 6⟩) ∧
    ((computeMetrics ⟨1, 2, 3, 4, 5, 6⟩ 0 100 100 100).drawW = 0 ∧
     (computeMetrics ⟨1, 2, 3, 4, 5, 6⟩ 0 100 100 100).drawH = 0) :=
  ⟨(computeMetrics_zero_guard ⟨1, 2, 3, 4, 5, 6⟩ 200 100 0 100).1
      (Or.inl rfl),
   (computeMetrics_zero_guard ⟨1, 2, 3, 4, 5, 6⟩ 0 100 100 100).2
      (by norm_num) (by norm_num) (by norm_num)⟩

/-! Hazard-Region synchronizer, from the sanitization step of
analyzeImage (src/unnamed/part_002 lines 115 to 131).  The source
builds `hazardIds` and `regionIds` as JavaScript Sets over the ORIGINAL
input lists and then filters each list by membership of its id in the
opposite Set; Set membership coincides with list membership of the
mapped id lists, which is how it is modelled here. -/

/-- Ids of a hazard list, as in `analysis.hazards.map(h => h.id)`. -/
def hazardIds (hazards : List Hazard) : List String :=
  hazards.map (fun h => h.id)

/-- Ids of a region list, as in `analysis.regions.map(r => r.id)`. -/
def regionIds (regions : List Region) : List String :=
  regions.map (fun r => r.id)

/-- Embedding of `analysis.hazards.filter(h => regionIds.has(h.id))`. -/
def synchronizedHazards (hazards : List Hazard) (regions : List Region) :
    List Hazard :=
  hazards.filter (fun h => (regionIds regions).contains h.id)

/-- Embedding of `analysis.regions.filter(r => hazardIds.has(r.id))`. -/
def synchronizedRegions (hazards : List Hazard) (regions : List Region) :
    List Region :=
  regions.filter (fun r => (hazardIds hazards).contains r.id)

lemma mem_synchronizedHazards {hazards : List Hazard} {regions : List Region}
    {h : Hazard} :
    h ∈ synchronizedHazards hazards regions ↔
      h ∈ hazards ∧ h.id ∈ regionIds regions := by
  simp [synchronizedHazards, List.mem_filter, List.elem_iff]

lemma mem_synchronizedRegions {hazards : List Hazard} {regions : List Region}
    {r : Region} :
    r ∈ synchronizedRegions hazards regions ↔
      r ∈ regions ∧ r.id ∈ hazardIds hazards := by
  simp [synchronizedRegions, List.mem_filter, List.elem_iff]

lemma mem_hazardIds_sync {hazards : List Hazard} {regions : List Region}
    {s : String} :
    s ∈ hazardIds (synchronizedHazards hazards regions) ↔
      s ∈ hazardIds hazards ∧ s ∈ regionIds regions := by
  simp only [hazardIds, List.mem_map]
  constructor
  · rintro ⟨h, hmem, rfl⟩
    rcases mem_synchronizedHazards.mp hmem with ⟨h1, h2⟩
    exact ⟨⟨h, h1, rfl⟩, h2⟩
  · rintro ⟨⟨h, h1, rfl⟩, h2⟩
    exact ⟨h, mem_synchronizedHazards.mpr ⟨h1, h2⟩, rfl⟩

lemma mem_regionIds_sync {hazards : List Hazard} {regions : List Region}
    {s : String} :
    s ∈ regionIds (synchronizedRegions hazards regions) ↔
      s ∈ hazardIds hazards ∧ s ∈ regionIds regions := by
  simp only [regionIds, List.mem_map]
  constructor
  · rintro ⟨r, hmem, rfl⟩
    rcases mem_synchronizedRegions.mp hmem with ⟨h1, h2⟩
    exact ⟨h2, ⟨r, h1, rfl⟩⟩
  · rintro ⟨h2, ⟨r, h1, rfl⟩⟩
    exact ⟨r, mem_synchronizedRegions.mpr ⟨h1, h2⟩, rfl⟩

/-- C2: the synchronizer keeps exactly the hazards whose id occurs among
the region ids and exactly the regions whose id occurs among the hazard
ids; on the output the set of hazard ids equals the set of region ids;
and the output hazard list is empty iff the output region list is. -/
theorem analyzeImage_sync_id_sets (hazards : List Hazard)
    (regions : List Region) :
    (∀ h, h ∈ synchronizedHazards hazards regions ↔
        h ∈ hazards ∧ h.id ∈ regionIds regions) ∧
    (∀ r, r ∈ synchronizedRegions hazards regions ↔
        r ∈ regions ∧ r.id ∈ hazardIds hazards) ∧
    (∀ s, s ∈ hazardIds (synchronizedHazards hazards regions) ↔
        s ∈ regionIds (synchronizedRegions hazards regions)) ∧
    (synchronizedHazards hazards regions = [] ↔
        synchronizedRegions hazards regions = []) := by
  refine ⟨fun h => mem_synchronizedHazards, fun r => mem_synchronizedRegions,
    fun s => by rw [mem_hazardIds_sync, mem_regionIds_sync], ?_⟩
  constructor
  · intro hempty
    rw [List.eq_nil_iff_forall_not_mem]
    intro r hr
    rcases mem_regionIds_sync.mp (List.mem_map_of_mem (fun r => r.id) hr)
      with ⟨hs, hrids⟩
    rcases List.mem_map.mp hs with ⟨h, hmem, hid⟩
    have : h ∈ synchronizedHazards hazards regions :=
      mem_synchronizedHazards.mpr ⟨hmem, by rw [hid]; exact hrids⟩
    rw [hempty] at this
    exact absurd this (List.not_mem_nil h)
  · intro hempty
    rw [List.eq_nil_iff_forall_not_mem]
    intro h hh
    rcases mem_hazardIds_sync.mp (List.mem_map_of_mem (fun h => h.id) hh)
      with ⟨hhids, hs⟩
    rcases List.mem_map.mp hs with ⟨r, hmem, hid⟩
    have : r ∈ synchronizedRegions hazards regions :=
      mem_synchronizedRegions.mpr ⟨hmem, by rw [hid]; exact hhids⟩
    rw [hempty] at this
    exact absurd this (List.not_mem_nil r)

/-- C7 counterexample: the synchronizer is a plain filter, so duplicate
ids in the input survive into the output: two hazards with id H1 against
one region with id H1 yield an output hazard id list with a duplicate. -/
theorem sync_duplicate_ids_counterexample :
    ¬ (hazardIds (synchronizedHazards
        [⟨"H1", "a", none, []⟩, ⟨"H1", "b", none, []⟩]
        [{ id := "H1", shape := "rect" }])).Nodup := by
  decide

/-- C7 amended: on every output the set of hazard ids equals the set of
region ids, and the output id lists are duplicate-free whenever the
corresponding INPUT id lists are duplicate-free; duplicate ids present
in an input are preserved, not removed. -/
theorem sync_invariant_id_sets_nodup (hazards : List Hazard)
    (regions : List Region) :
    (∀ s, s ∈ hazardIds (synchronizedHazards hazards regions) ↔
        s ∈ regionIds (synchronizedRegions hazards regions)) ∧
    ((hazardIds hazards).Nodup →
        (hazardIds (synchronizedHazards hazards regions)).Nodup) ∧
    ((regionIds regions).Nodup →
        (regionIds (synchronizedRegions hazards regions)).Nodup) := by
  refine ⟨fun s => by rw [mem_hazardIds_sync, mem_regionIds_sync], ?_, ?_⟩
  · intro hnd
    have hsub : (hazardIds (synchronizedHazards hazards regions)).Sublist
        (hazardIds hazards) := by
      simp only [hazardIds, synchronizedHazards]
      exact List.Sublist.map (fun h => h.id) (List.filter_sublist hazards)
    exact hnd.sublist hsub
  · intro hnd
    have hsub : (regionIds (synchronizedRegions hazards regions)).Sublist
        (regionIds regions) := by
      simp only [regionIds, synchronizedRegions]
      exact List.Sublist.map (fun r => r.id) (List.filter_sublist regions)
    exact hnd.sublist hsub

/-- Witness for C7 amended: duplicate-free inputs with one matching id
give a duplicate-free output hazard id list. -/
theorem sync_invariant_id_sets_nodup_witness :
    (hazardIds [(⟨"H1", "a", none, []⟩ : Hazard), ⟨"H2", "b", none, []⟩]).Nodup ∧
    (hazardIds (synchronizedHazards
        [⟨"H1", "a", none, []⟩, ⟨"H2", "b", none, []⟩]
        [{ id := "H1", shape := "rect" }])).Nodup :=
  ⟨by decide,
   (sync_invariant_id_sets_nodup
      [⟨"H1", "a", none, []⟩, ⟨"H2", "b", none, []⟩]
      [{ id := "H1", shape := "rect" }]).2.1 (by decide)⟩

/-- C8: the synchronizer is idempotent: filtering its own output again
changes nothing (and, being a total function on lists, it never
raises). -/
theorem analyzeImage_sync_idempotent (hazards : List Hazard)
    (regions : List Region) :
    synchronizedHazards (synchronizedHazards hazards regions)
        (synchronizedRegions hazards regions) =
      synchronizedHazards hazards regions ∧
    synchronizedRegions (synchronizedHazards hazards regions)
        (synchronizedRegions hazards regions) =
      synchronizedRegions hazards regions := by
  constructor
  · apply List.filter_eq_self.mpr
    intro h hmem
    rcases mem_synchronizedHazards.mp hmem with ⟨hh, hid⟩
    have hmem2 : h.id ∈ regionIds (synchronizedRegions hazards regions) :=
      mem_regionIds_sync.mpr ⟨List.mem_map_of_mem (fun h => h.id) hh, hid⟩
    simpa [List.elem_iff] using hmem2
  · apply List.filter_eq_self.mpr
    intro r hmem
    rcases mem_synchronizedRegions.mp hmem with ⟨hr, hid⟩
    have hmem2 : r.id ∈ hazardIds (synchronizedHazards hazards regions) :=
      mem_hazardIds_sync.mpr ⟨hid, List.mem_map_of_mem (fun r => r.id) hr⟩
    simpa [List.elem_iff] using hmem2

/-! Heatmap renderer, from the heatmap effect of ImageDisplay.tsx
(lines 146 to 199). -/

/-- Embedding of the heatRGB colour table; looking up a key outside the
table yields `none`, modelling the undefined result of a JavaScript
record access with an unknown key (the subsequent component access on it
would raise a TypeError). -/
def heatRGB : String → Option (ℕ × ℕ × ℕ)
  | "HIGH" => some (239, 68, 68)
  | "MEDIUM" => some (245, 158, 11)
  | "LOW" => some (34, 197, 94)
  | _ => none

/-- Embedding of the optional-chain access `hz.risk?.severity`. -/
def severityOf (hz : Hazard) : Option String :=
  hz.risk.map (fun r => r.severity)

/-- JavaScript truthiness fallback `s || "MEDIUM"`: both undefined and
the empty string are falsy. -/
def severityOrMedium : Option String → String
  | none => "MEDIUM"
  | some s => if s = "" then "MEDIUM" else s

/-- Embedding of line 180, the colour lookup keyed by
hz.risk?.severity with the falsy fallback to MEDIUM. -/
def heatColor (hz : Hazard) : Option (ℕ × ℕ × ℕ) :=
  heatRGB (severityOrMedium (severityOf hz))

/-- Embedding of the radius ternary (lines 181 to 184): strict equality
against HIGH, then MEDIUM, with everything else falling through to the
0.12 factor. -/
def logicalRadius (hz : Hazard) (drawW : ℚ) : ℚ :=
  if severityOf hz = some "HIGH" then drawW * (25 / 100)
  else if severityOf hz = some "MEDIUM" then drawW * (18 / 100)
  else drawW * (12 / 100)

/-- C3 counterexample: a hazard carrying the unrecognized severity
string EXTREME receives the LOW radius tier 0.12 times drawW (here
drawW = 100), not the MEDIUM tier 0.18 times drawW, and its colour
lookup does not resolve to the MEDIUM colour either. -/
theorem heatmap_unknown_severity_counterexample :
    logicalRadius ⟨"H1", "a", some ⟨"EXTREME", "HIGH", "r"⟩, []⟩ 100 =
      100 * (12 / 100) ∧
    logicalRadius ⟨"H1", "a", some ⟨"EXTREME", "HIGH", "r"⟩, []⟩ 100 ≠
      100 * (18 / 100) ∧
    heatColor ⟨"H1", "a", some ⟨"EXTREME", "HIGH", "r"⟩, []⟩ ≠
      heatRGB "MEDIUM" := by
  refine ⟨?_, ?_, ?_⟩
  · simp [logicalRadius, severityOf]
  · simp [logicalRadius, severityOf]
    norm_num
  · simp [heatColor, severityOf, severityOrMedium, heatRGB]

/-- C3 amended: any severity that is neither HIGH nor MEDIUM (including
missing and unrecognized ones) falls through to the LOW radius tier
0.12 times drawW; a missing severity does default to the MEDIUM colour,
while an unrecognized nonempty severity string resolves to no colour at
all. -/
theorem heatmap_unknown_severity_fallback (hz : Hazard) (drawW : ℚ) :
    (severityOf hz ≠ some "HIGH" → severityOf hz ≠ some "MEDIUM" →
      logicalRadius hz drawW = drawW * (12 / 100)) ∧
    (severityOf hz = none → heatColor hz = heatRGB "MEDIUM") ∧
    (∀ s, severityOf hz = some s →
      s ∉ ["", "LOW", "MEDIUM", "HIGH"] → heatColor hz = none) := by
  refine ⟨?_, ?_, ?_⟩
  · intro h1 h2
    simp only [logicalRadius, if_neg h1, if_neg h2]
  · intro h
    simp only [heatColor, h, severityOrMedium]
  · intro s hs hsne
    simp only [List.mem_cons, List.mem_singleton, List.not_mem_nil, or_false,
      not_or] at hsne
    obtain ⟨hne, hlo, hme, hhi⟩ := hsne
    simp only [heatColor, hs, severityOrMedium, if_neg hne]
    unfold heatRGB
    split
    · exact absurd rfl hhi
    · exact absurd rfl hme
    · exact absurd rfl hlo
    · rfl

/-- Witness for C3 amended: a hazard with missing risk gets the LOW
radius tier and the MEDIUM colour, a hazard with severity EXTREME gets
no colour. -/
theorem heatmap_unknown_severity_fallback_witness :
    logicalRadius ⟨"H1", "a", none, []⟩ 200 = 200 * (12 / 100) ∧
    heatColor ⟨"H1", "a", none, []⟩ = heatRGB "MEDIUM" ∧
    heatColor ⟨"H2", "b", some ⟨"EXTREME", "LOW", "r"⟩, []⟩ = none :=
  ⟨(heatmap_unknown_severity_fallback ⟨"H1", "a", none, []⟩ 200).1
      (by simp [severityOf]) (by simp [severityOf]),
   (heatmap_unknown_severity_fallback ⟨"H1", "a", none, []⟩ 200).2.1
      (by simp [severityOf]),
   (heatmap_unknown_severity_fallback ⟨"H2", "b", some ⟨"EXTREME", "LOW", "r"⟩, []⟩ 200).2.2
      "EXTREME" (by simp [severityOf]) (by simp)⟩

/-- Embedding of centerOf (ImageDisplay.tsx lines 158 to 172).  The
source is a pair of sequential ifs followed by `return null`; a rect
with a missing field fails the first condition and, its shape not being
poly, also the second, so it lands on null — the branch structure below
returns none in exactly the same cases.  `Math.min(...xs)` over the
nonempty spread is a left fold of min seeded with the first element. -/
def centerOf (r : Region) (drawW drawH : ℚ) : Option (ℚ × ℚ) :=
  if r.shape = "rect" then
    match r.x, r.y, r.w, r.h with
    | some x, some y, some w, some h =>
        some ((x + w / 2) * drawW, (y + h / 2) * drawH)
    | _, _, _, _ => none
  else if r.shape = "poly" then
    match r.points with
    | some (p :: ps) =>
        let x0 := p.1 * drawW
        let y0 := p.2 * drawH
        let xs := ps.map (fun q => q.1 * drawW)
        let ys := ps.map (fun q => q.2 * drawH)
        some ((xs.foldl min x0 + xs.foldl max x0) / 2,
              (ys.foldl min y0 + ys.foldl max y0) / 2)
    | _ => none
  else none

/-- Embedding of the device-pixel-ratio scaling and painting parameters
(lines 186 to 189): the centroid components and the logical radius are
each multiplied by dpr. -/
def heatInstance (hz : Hazard) (r : Region) (drawW drawH dpr : ℚ) :
    Option (ℚ × ℚ × ℚ) :=
  (centerOf r drawW drawH).map
    (fun c => (c.1 * dpr, c.2 * dpr, logicalRadius hz drawW * dpr))

/-- Embedding of the buffer sizing (lines 154 to 155):
`canvas.width = Math.round(metrics.drawW * dpr)` and the analogous
height; JavaScript Math.round is floor of x + 1/2, which is Lean round. -/
def canvasSize (drawW drawH dpr : ℚ) : ℤ × ℤ :=
  (round (drawW * dpr), round (drawH * dpr))

lemma foldl_min_mem (l : List ℚ) (a : ℚ) : l.foldl min a ∈ a :: l := by
  induction l generalizing a with
  | nil => simp
  | cons b t ih =>
    simp only [List.foldl_cons]
    rcases List.mem_cons.mp (ih (min a b)) with h | h
    · rcases min_choice a b with hab | hab <;> rw [h, hab]
      · exact List.mem_cons_self _ _
      · exact List.mem_cons_of_mem _ (List.mem_cons_self _ _)
    · exact List.mem_cons_of_mem _ (List.mem_cons_of_mem _ h)

lemma foldl_min_le (l : List ℚ) (a : ℚ) :
    ∀ x ∈ a :: l, l.foldl min a ≤ x := by
  induction l generalizing a with
  | nil =>
    intro x hx
    rcases List.mem_cons.mp hx with rfl | hx2
    · exact le_refl _
    · exact absurd hx2 (List.not_mem_nil _)
  | cons b t ih =>
    intro x hx
    simp only [List.foldl_cons]
    rcases List.mem_cons.mp hx with rfl | hx2
    · exact le_trans (ih _ _ (List.mem_cons_self _ _)) (min_le_left _ _)
    · rcases List.mem_cons.mp hx2 with rfl | hx3
      · exact le_trans (ih _ _ (List.mem_cons_self _ _)) (min_le_right _ _)
      · exact ih _ _ (List.mem_cons_of_mem _ hx3)

lemma foldl_max_mem (l : List ℚ) (a : ℚ) : l.foldl max a ∈ a :: l := by
  induction l generalizing a with
  | nil => simp
  | cons b t ih =>
    simp only [List.foldl_cons]
    rcases List.mem_cons.mp (ih (max a b)) with h | h
    · rcases max_choice a b with hab | hab <;> rw [h, hab]
      · exact List.mem_cons_self _ _
      · exact List.mem_cons_of_mem _ (List.mem_cons_self _ _)
    · exact List.mem_cons_of_mem _ (List.mem_cons_of_mem _ h)

lemma le_foldl_max (l : List ℚ) (a : ℚ) :
    ∀ x ∈ a :: l, x ≤ l.foldl max a := by
  induction l generalizing a with
  | nil =>
    intro x hx
    rcases List.mem_cons.mp hx with rfl | hx2
    · exact le_refl _
    · exact absurd hx2 (List.not_mem_nil _)
  | cons b t ih =>
    intro x hx
    simp only [List.foldl_cons]
    rcases List.mem_cons.mp hx with rfl | hx2
    · exact le_trans (le_max_left _ _) (ih _ _ (List.mem_cons_self _ _))
    · rcases List.mem_cons.mp hx2 with rfl | hx3
      · exact le_trans (le_max_right _ _) (ih _ _ (List.mem_cons_self _ _))
      · exact ih _ _ (List.mem_cons_of_mem _ hx3)

/-- C9: the heat centroid of a complete rect is its geometric center in
draw-space; the heat centroid of a nonempty poly is the center of the
axis-aligned bounding box of its scaled vertices (witnessed by actual
minima/maxima of the scaled coordinate lists); the painted center and
radius are the centroid and logical radius multiplied by dpr; and the
raster buffer dimensions are drawW times dpr and drawH times dpr up to
the rounding of Math.round (within one half). -/
theorem heatmap_centroid_spec (r : Region) (hz : Hazard)
    (drawW drawH dpr : ℚ) :
    (∀ x y w h, r.shape = "rect" → r.x = some x → r.y = some y →
      r.w = some w → r.h = some h →
      centerOf r drawW drawH =
        some ((x + w / 2) * drawW, (y + h / 2) * drawH)) ∧
    (∀ p ps, r.shape = "poly" → r.points = some (p :: ps) →
      ∃ mnx mxx mny mxy : ℚ,
        centerOf r drawW drawH = some ((mnx + mxx) / 2, (mny + mxy) / 2) ∧
        (mnx ∈ (p :: ps).map (fun q => q.1 * drawW) ∧
          ∀ a ∈ (p :: ps).map (fun q => q.1 * drawW), mnx ≤ a) ∧
        (mxx ∈ (p :: ps).map (fun q => q.1 * drawW) ∧
          ∀ a ∈ (p :: ps).map (fun q => q.1 * drawW), a ≤ mxx) ∧
        (mny ∈ (p :: ps).map (fun q => q.2 * drawH) ∧
          ∀ a ∈ (p :: ps).map (fun q => q.2 * drawH), mny ≤ a) ∧
        (mxy ∈ (p :: ps).map (fun q => q.2 * drawH) ∧
          ∀ a ∈ (p :: ps).map (fun q => q.2 * drawH), a ≤ mxy)) ∧
    (∀ c, centerOf r drawW drawH = some c →
      heatInstance hz r drawW drawH dpr =
        some (c.1 * dpr, c.2 * dpr, logicalRadius hz drawW * dpr)) ∧
    (|((canvasSize drawW drawH dpr).1 : ℚ) - drawW * dpr| ≤ 1 / 2 ∧
     |((canvasSize drawW drawH dpr).2 : ℚ) - drawH * dpr| ≤ 1 / 2) := by
  refine ⟨?_, ?_, ?_, ?_, ?_⟩
  · intro x y w h hs hx hy hw hh
    simp only [centerOf, if_pos hs, hx, hy, hw, hh]
  · intro p ps hs hp
    have hs2 : r.shape ≠ "rect" := by rw [hs]; decide
    refine ⟨(ps.map (fun q => q.1 * drawW)).foldl min (p.1 * drawW),
      (ps.map (fun q => q.1 * drawW)).foldl max (p.1 * drawW),
      (ps.map (fun q => q.2 * drawH)).foldl min (p.2 * drawH),
      (ps.map (fun q => q.2 * drawH)).foldl max (p.2 * drawH),
      ?_, ?_, ?_, ?_, ?_⟩
    · simp only [centerOf, if_neg hs2, if_pos hs, hp]
    · exact ⟨foldl_min_mem _ _, foldl_min_le _ _⟩
    · exact ⟨foldl_max_mem _ _, le_foldl_max _ _⟩
    · exact ⟨foldl_min_mem _ _, foldl_min_le _ _⟩
    · exact ⟨foldl_max_mem _ _, le_foldl_max _ _⟩
  · intro c hc
    simp only [heatInstance, hc, Option.map_some']
  · rw [show ((canvasSize drawW drawH dpr).1 : ℚ) = (round (drawW * dpr) : ℤ)
        from rfl, abs_sub_comm]
    simpa using abs_sub_round (drawW * dpr)
  · rw [show ((canvasSize drawW drawH dpr).2 : ℚ) = (round (drawH * dpr) : ℤ)
        from rfl, abs_sub_comm]
    simpa using abs_sub_round (drawH * dpr)

/-- Sample rect region for the C9 witness. -/
def sampleRect : Region :=
  { id := "H1", shape := "rect", x := some (1/4), y := some (1/4),
    w := some (1/2), h := some (1/2) }

/-- Sample hazard for the C9 witness. -/
def sampleHazard : Hazard :=
  { id := "H1", hazard := "a", risk := none, decide_controls := [] }

/-- Witness for C9: the centroid properties applied to a concrete rect
and the dpr scaling applied to its centroid. -/
theorem heatmap_centroid_spec_witness :
    centerOf sampleRect 200 100 =
      some ((1/4 + (1/2) / 2) * 200, (1/4 + (1/2) / 2) * 100) ∧
    heatInstance sampleHazard sampleRect 200 100 2 =
      some (((1/4 + (1/2) / 2) * 200) * 2, ((1/4 + (1/2) / 2) * 100) * 2,
        logicalRadius sampleHazard 200 * 2) :=
  ⟨(heatmap_centroid_spec sampleRect sampleHazard 200 100 2).1
      (1/4) (1/4) (1/2) (1/2) rfl rfl rfl rfl rfl,
   (heatmap_centroid_spec sampleRect sampleHazard 200 100 2).2.2.1
      ((1/4 + (1/2) / 2) * 200, (1/4 + (1/2) / 2) * 100)
      ((heatmap_centroid_spec sampleRect sampleHazard 200 100 2).1
        (1/4) (1/4) (1/2) (1/2) rfl rfl rfl rfl rfl)⟩

/-! Interaction state, from App.tsx (lines 26 to 27: a single nullable
selected id and a single nullable hovered id) and the RegionShape
handlers of ImageDisplay.tsx (lines 58 to 70). -/

/-- The selection plus hover state held in App.tsx. -/
structure UIState where
  selectedHazardId : Option String
  hoveredHazardId : Option String
deriving DecidableEq, Repr

/-- The setter App passes down as onHazardSelect. -/
def setSelectedHazardId (s : UIState) (v : Option String) : UIState :=
  { s with selectedHazardId := v }

/-- The setter App passes down as onHazardHover. -/
def setHoveredHazardId (s : UIState) (v : Option String) : UIState :=
  { s with hoveredHazardId := v }

/-- onMouseEnter of a RegionShape: onHover(region.id). -/
def shapeMouseEnter (s : UIState) (i : String) : UIState :=
  setHoveredHazardId s (some i)

/-- onMouseLeave of a RegionShape: onHover(null). -/
def shapeMouseLeave (s : UIState) : UIState :=
  setHoveredHazardId s none

/-- onClick of a RegionShape: e.stopPropagation() keeps the background
svg handler from firing, then onSelect(region.id) runs; the whole effect
of a shape click is therefore this single state update. -/
def shapeClick (s : UIState) (i : String) : UIState :=
  setSelectedHazardId s (some i)

/-- onClick of the background svg (fires only when no shape consumed the
click): onHazardSelect(null). -/
def backgroundClick (s : UIState) : UIState :=
  setSelectedHazardId s none

/-- The isSelected prop handed to a RegionShape. -/
def isSelected (s : UIState) (i : String) : Prop :=
  s.selectedHazardId = some i

/-- The isHovered prop handed to a RegionShape. -/
def isHovered (s : UIState) (i : String) : Prop :=
  s.hoveredHazardId = some i

/-- C5 counterexample: clicking a shape that is already selected leaves
it selected — onClick calls setSelectedHazardId(region.id), a plain set,
not a toggle, so the membership is NOT removed. -/
theorem shape_click_toggle_counterexample :
    isSelected ⟨some "H1", none⟩ "H1" ∧
    isSelected (shapeClick ⟨some "H1", none⟩ "H1") "H1" :=
  ⟨rfl, rfl⟩

/-- C5 amended: a shape click sets the selection to that id (replacing
any other selection, and leaving an already-selected shape selected)
without reaching the background handler; a background click with no
shape hit clears the selection entirely; neither click touches any
hover state. -/
theorem shape_click_select_background_clear (s : UIState) (i : String) :
    (shapeClick s i).selectedHazardId = some i ∧
    (shapeClick s i).hoveredHazardId = s.hoveredHazardId ∧
    (backgroundClick s).selectedHazardId = none ∧
    (backgroundClick s).hoveredHazardId = s.hoveredHazardId :=
  ⟨rfl, rfl, rfl, rfl⟩

/-- C10: the hover state is one nullable id, so at any moment at most
one id is hovered; a pointer-enter replaces any other hovered id by the
entered one; a pointer-leave clears the hovered id completely. -/
theorem hovered_single_id_invariant (s : UIState) (a b i : String) :
    (isHovered s a → isHovered s b → a = b) ∧
    isHovered (shapeMouseEnter s i) i ∧
    (∀ j, j ≠ i → ¬ isHovered (shapeMouseEnter s i) j) ∧
    (shapeMouseLeave s).hoveredHazardId = none := by
  refine ⟨?_, rfl, ?_, rfl⟩
  · intro ha hb
    rw [isHovered] at ha hb
    exact Option.some_injective _ (ha.symm.trans hb)
  · intro j hj hcontra
    rw [isHovered] at hcontra
    exact hj (Option.some_injective _ hcontra).symm

/-- Witness for C10: the invariant applied at a concrete state where
H1 is hovered, plus enter/leave transitions at concrete ids. -/
theorem hovered_single_id_invariant_witness :
    ("H1" = "H1") ∧
    isHovered (shapeMouseEnter ⟨none, none⟩ "H1") "H1" ∧
    ¬ isHovered (shapeMouseEnter ⟨none, none⟩ "H1") "H2" ∧
    (shapeMouseLeave ⟨none, some "H1"⟩).hoveredHazardId = none :=
  ⟨(hovered_single_id_invariant ⟨none, some "H1"⟩ "H1" "H1" "H1").1 rfl rfl,
   (hovered_single_id_invariant ⟨none, none⟩ "H1" "H1" "H1").2.1,
   (hovered_single_id_invariant ⟨none, none⟩ "H1" "H1" "H1").2.2.1 "H2"
     (by decide),
   (hovered_single_id_invariant ⟨none, some "H1"⟩ "H1" "H1" "H1").2.2.2⟩

/-! Mask generator, from createMaskFromRegion (src/unnamed/part_000
lines 29 to 59). -/

/-- The single white shape painted over the black background of a mask,
with coordinates already scaled to the requested raster size. -/
inductive MaskShape
  | rect (x y w h : ℚ)
  | poly (first : ℚ × ℚ) (rest : List (ℚ × ℚ))
deriving DecidableEq, Repr

/-- What createMaskFromRegion paints before encoding to PNG: a black
background of the requested size plus at most one white shape.
`shapeCmd = none` is the all-background (exclude-tone) raster. -/
structure MaskSpec where
  width : ℕ
  height : ℕ
  shapeCmd : Option MaskShape
deriving DecidableEq, Repr

/-- Embedding of createMaskFromRegion.  `Except.error` models a thrown
exception: the explicit missing-context throw, and the TypeError that
reading `points[0][0]` raises when the points array is present but
empty (an empty array is truthy in JavaScript, so it passes the
`region.points` test).  The source chains
`if (rect && fields) ... else if (poly && points) ...`; a rect with a
missing field therefore fails the first condition and, not being a poly,
paints nothing, exactly as the branch structure below. -/
def createMaskFromRegion (ctxAvailable : Bool) (region : Region)
    (width height : ℕ) : Except String MaskSpec :=
  if ctxAvailable = false then Except.error "Could not get canvas context"
  else if region.shape = "rect" then
    match region.x, region.y, region.w, region.h with
    | some x, some y, some w, some h =>
        Except.ok ⟨width, height,
          some (MaskShape.rect (x * width) (y * height)
            (w * width) (h * height))⟩
    | _, _, _, _ => Except.ok ⟨width, height, none⟩
  else if region.shape = "poly" then
    match region.points with
    | some [] => Except.error "TypeError: cannot read 0 of empty points"
    | some (p :: ps) =>
        Except.ok ⟨width, height,
          some (MaskShape.poly (p.1 * width, p.2 * height)
            (ps.map (fun q => (q.1 * width, q.2 * height))))⟩
    | none => Except.ok ⟨width, height, none⟩
  else Except.ok ⟨width, height, none⟩

/-- C6: with an available canvas context, a region whose shape is
neither rect nor poly, a rect missing a geometric field, and a poly
missing its points all produce the all-background raster of the
requested size without raising; and a poly with at least one point (the
data-model lower bound) never raises. -/
theorem createMaskFromRegion_malformed_safe (region : Region)
    (width height : ℕ) :
    (((region.shape ≠ "rect" ∧ region.shape ≠ "poly") ∨
      (region.shape = "rect" ∧ (region.x = none ∨ region.y = none ∨
        region.w = none ∨ region.h = none)) ∨
      (region.shape = "poly" ∧ region.points = none)) →
      createMaskFromRegion true region width height =
        Except.ok ⟨width, height, none⟩) ∧
    (∀ p ps, region.shape = "poly" → region.points = some (p :: ps) →
      ∃ m : MaskSpec,
        createMaskFromRegion true region width height = Except.ok m) := by
  constructor
  · intro hmal
    rcases hmal with ⟨hr, hp⟩ | ⟨hr, hf⟩ | ⟨hp, hpts⟩
    · simp only [createMaskFromRegion, Bool.true_eq_false, if_false,
        if_neg hr, if_neg hp]
    · have hnp : region.shape ≠ "poly" := by rw [hr]; decide
      rcases hx : region.x with _ | x <;> rcases hy : region.y with _ | y <;>
        rcases hw : region.w with _ | w <;> rcases hh : region.h with _ | h <;>
        simp only [createMaskFromRegion, Bool.true_eq_false, if_false,
          if_pos hr, if_neg hnp, hx, hy, hw, hh] <;>
        first
          | rfl
          | (exfalso; rcases hf with h1 | h1 | h1 | h1 <;> simp_all)
    · have hnr : region.shape ≠ "rect" := by rw [hp]; decide
      simp only [createMaskFromRegion, Bool.true_eq_false, if_false,
        if_neg hnr, if_pos hp, hpts]
  · intro p ps hp hpts
    have hnr : region.shape ≠ "rect" := by rw [hp]; decide
    refine ⟨⟨width, height,
      some (MaskShape.poly (p.1 * width, p.2 * height)
        (ps.map (fun q => (q.1 * width, q.2 * height))))⟩, ?_⟩
    simp only [createMaskFromRegion, Bool.true_eq_false, if_false,
      if_neg hnr, if_pos hp, hpts]

/-- Sample region with an unknown shape value for the C6 witness. -/
def sampleCircle : Region := { id := "H1", shape := "circle" }

/-- Sample one-point poly region for the C6 witness. -/
def samplePoly : Region :=
  { id := "H2", shape := "poly", points := some [(0, 0)] }

/-- Witness for C6: a region with the unknown shape value circle gives
the all-background 4 by 3 mask, and a one-point poly raises nothing. -/
theorem createMaskFromRegion_malformed_safe_witness :
    (createMaskFromRegion true sampleCircle 4 3 =
      Except.ok ⟨4, 3, none⟩) ∧
    (∃ m : MaskSpec,
      createMaskFromRegion true samplePoly 4 3 = Except.ok m) :=
  ⟨(createMaskFromRegion_malformed_safe sampleCircle 4 3).1
      (Or.inl ⟨by decide, by decide⟩),
   (createMaskFromRegion_malformed_safe samplePoly 4 3).2
      (0, 0) [] rfl rfl⟩

end SafetyMapper
